import Mathlib

/-!
Verification of the djinn movie bot (src/djinn.py, src/imdb.py) against its
natural-language specification.  The Python code is shallowly embedded below:
pure functions become Lean functions, the asyncio scheduler becomes an explicit
state type with a step relation, and the SQL/Discord collaborators are modelled
by the data the code hands them (query strings, bound-value lists, message
handles, reply events).
-/

namespace Djinn

/-! ## Embedding of imdb.format_constraints (src/imdb.py lines 247-290)

Constraints are a disjunction (outer list) of conjunctions (inner lists) of
atoms (column, operation, value).  The Python function walks every atom,
returns None on the first atom whose column or operation is outside the
allow-lists (or a genres atom whose operation is not "="), rewrites genres
equality to a LIKE containment match, and otherwise collects
"column operation ?" templates plus the bound values in atom order. -/

def allowed_columns : List String := ["rating", "votes", "runtime", "year", "genres"]

def allowed_operations : List String := ["<=", "<", ">=", ">", "=", "<>"]

/-- One conjunction: the inner loop of format_constraints.  Returns the
and-clause templates and the bound values contributed by this conjunction. -/
def format_conjunction : List (String × String × String) → Option (List String × List String)
  | [] => some ([], [])
  | (column, operation, value) :: rest =>
    if column ∈ allowed_columns ∧ operation ∈ allowed_operations then
      if column = "genres" then
        if operation = "=" then
          (format_conjunction rest).map
            (fun p => ((column ++ " " ++ "like" ++ " ?") :: p.1, ("%" ++ value ++ "%") :: p.2))
        else none
      else
        (format_conjunction rest).map
          (fun p => ((column ++ " " ++ operation ++ " ?") :: p.1, value :: p.2))
    else none

/-- Outer loop of format_constraints: all conjunctions, each joined with
" and ", plus the concatenated bound values in traversal order. -/
def format_or_clauses : List (List (String × String × String)) → Option (List String × List String)
  | [] => some ([], [])
  | c :: rest =>
    match format_conjunction c with
    | none => none
    | some (ands, vs) =>
      (format_or_clauses rest).map
        (fun p => (String.intercalate " and " ands :: p.1, vs ++ p.2))

/-- Embedding of imdb.format_constraints: the WHERE-clause template (or-joined)
and the ordered bound values, or none when any atom is rejected. -/
def format_constraints (constraints : List (List (String × String × String))) :
    Option (String × List String) :=
  match format_or_clauses constraints with
  | none => none
  | some (ors, vals) => some (String.intercalate " or " ors, vals)

/-! ## Embedding of IMDB.random_movies_2 (src/imdb.py lines 209-245)

The function takes the amount as a string, strips it, replaces it with "3"
unless it is composed only of digits, and builds a parameterized query.  A
failing format_constraints makes the generator yield nothing (the bare
`return None` inside a generator body), modelled as `none`: no query is
executed.  The SQL text is canonicalized to a single line; only its shape and
the bound values matter here. -/

def isDigitString (s : String) : Bool := !s.isEmpty && s.toList.all Char.isDigit

/-- Embedding of Python str.strip(): drop leading and trailing whitespace.
Implemented over the character list so that it evaluates by kernel
reduction. -/
def pystrip (s : String) : String :=
  String.mk (((s.toList.dropWhile Char.isWhitespace).reverse.dropWhile
    Char.isWhitespace).reverse)

/-- Lines 215-217 of src/imdb.py: strip the amount, default to "3" when it is
not purely digits. -/
def effective_amount (amount : String) : String :=
  if isDigitString (pystrip amount) then pystrip amount else "3"

def random_movies_2_query (amount : String)
    (constraints : Option (List (List (String × String × String)))) :
    Option (String × List String) :=
  match constraints with
  | none =>
    some ("SELECT * FROM movies NATURAL JOIN ratings ORDER BY RANDOM() LIMIT ?",
      [effective_amount amount])
  | some cs =>
    match format_constraints cs with
    | none => none
    | some (clause, clause_values) =>
      some ("SELECT * FROM movies NATURAL JOIN ratings WHERE " ++ clause ++
          " ORDER BY RANDOM() LIMIT ?",
        clause_values ++ [effective_amount amount])

/-! ## Helper lemmas about format_constraints -/

theorem format_conjunction_eq_none_of_bad_atom
    {c : List (String × String × String)} {f op v : String}
    (hmem : (f, op, v) ∈ c)
    (hbad : f ∉ allowed_columns ∨ op ∉ allowed_operations) :
    format_conjunction c = none := by
  induction c with
  | nil => cases hmem
  | cons hd tl ih =>
    obtain ⟨column, operation, value⟩ := hd
    rcases List.mem_cons.mp hmem with heq | hmem2
    · obtain ⟨rfl, rfl, rfl⟩ := Prod.mk.injEq .. ▸ heq
      simp only [format_conjunction]
      rw [if_neg]
      intro hcond
      rcases hbad with h | h
      · exact h hcond.1
      · exact h hcond.2
    · simp only [format_conjunction, ih hmem2, Option.map_none']
      split
      · split
        · split <;> rfl
        · rfl
      · rfl

theorem format_conjunction_eq_none_of_genres_atom
    {c : List (String × String × String)} {op v : String}
    (hmem : ("genres", op, v) ∈ c)
    (hop : op ≠ "=") :
    format_conjunction c = none := by
  induction c with
  | nil => cases hmem
  | cons hd tl ih =>
    obtain ⟨column, operation, value⟩ := hd
    rcases List.mem_cons.mp hmem with heq | hmem2
    · obtain ⟨rfl, rfl, rfl⟩ := Prod.mk.injEq .. ▸ heq
      simp only [format_conjunction]
      split
      · simp [hop]
      · rfl
    · simp only [format_conjunction, ih hmem2, Option.map_none']
      split
      · split
        · split <;> rfl
        · rfl
      · rfl

theorem format_or_clauses_eq_none_of_mem
    {cs : List (List (String × String × String))} {c : List (String × String × String)}
    (hc : c ∈ cs) (hnone : format_conjunction c = none) :
    format_or_clauses cs = none := by
  induction cs with
  | nil => cases hc
  | cons hd tl ih =>
    rcases List.mem_cons.mp hc with rfl | hmem
    · simp only [format_or_clauses, hnone]
    · simp only [format_or_clauses]
      split
      · rfl
      · rw [ih hmem, Option.map_none']

theorem format_constraints_eq_none
    {cs : List (List (String × String × String))} {c : List (String × String × String)}
    (hc : c ∈ cs) (hnone : format_conjunction c = none) :
    format_constraints cs = none := by
  simp only [format_constraints, format_or_clauses_eq_none_of_mem hc hnone]

/-! ## Claim theorems about the query compiler -/

/-- C3: for every constraint expression (disjunction of conjunctions of atoms),
if any single atom has a field outside the allow-list
{rating, votes, runtime, year, genres} or an operator outside
{=, <>, <, <=, >, >=}, then format_constraints returns none for the entire
expression, even when every other atom is valid. -/
theorem C3_disallowed_atom_rejects_whole_expression
    (cs : List (List (String × String × String))) (c : List (String × String × String))
    (f op v : String) (hc : c ∈ cs) (ha : (f, op, v) ∈ c)
    (hbad : f ∉ allowed_columns ∨ op ∉ allowed_operations) :
    format_constraints cs = none :=
  format_constraints_eq_none hc (format_conjunction_eq_none_of_bad_atom ha hbad)

/-- Witness for C3: a disjunction whose second conjunction starts with valid
atoms but contains a disallowed column is rejected entirely. -/
theorem C3_disallowed_atom_rejects_whole_expression_witness :
    format_constraints [[("rating", ">", "8")], [("votes", ">", "100"), ("director", "=", "x")]]
      = none :=
  C3_disallowed_atom_rejects_whole_expression _
    [("votes", ">", "100"), ("director", "=", "x")] "director" "=" "x"
    (by simp) (by simp) (by decide)

/-- C7 counterexample: a non-numeric value for the numeric field rating does
not make compilation fail; the value is passed through as a bound string. -/
theorem C7_nonnumeric_value_compiles :
    format_constraints [[("rating", ">", "abc")]] = some ("rating > ?", ["abc"]) := rfl

/-- C7 as amended: for every atom over a numeric field (rating, votes, runtime,
year) with an allowed operator, the value is passed through unchanged as a
bound parameter string; the compiler performs no numeric typing and never
fails because of the value. -/
theorem C7_value_passed_through_untyped (f op v : String)
    (hf : f ∈ ["rating", "votes", "runtime", "year"]) (hop : op ∈ allowed_operations) :
    format_constraints [[(f, op, v)]] = some (f ++ " " ++ op ++ " ?", [v]) := by
  fin_cases hf <;> fin_cases hop <;> rfl

/-- Witness for the amended C7: a non-numeric value for votes compiles to a
bound parameter. -/
theorem C7_value_passed_through_untyped_witness :
    format_constraints [[("votes", "<=", "ten")]] = some ("votes <= ?", ["ten"]) :=
  C7_value_passed_through_untyped "votes" "<=" "ten" (by decide) (by decide)

/-- C8: a genres atom with operator "=" is compiled to substring containment
(LIKE with the value wrapped in percent signs), and a genres atom with any
other operator makes the whole compilation return none. -/
theorem C8_genres_containment :
    (∀ (cs : List (List (String × String × String)))
        (c : List (String × String × String)) (op v : String),
      c ∈ cs → ("genres", op, v) ∈ c → op ≠ "=" → format_constraints cs = none) ∧
    (∀ v : String,
      format_constraints [[("genres", "=", v)]] = some ("genres like ?", ["%" ++ v ++ "%"])) := by
  constructor
  · intro cs c op v hc ha hop
    exact format_constraints_eq_none hc (format_conjunction_eq_none_of_genres_atom ha hop)
  · intro v
    rfl

/-- Witness for C8: a genres inequality is rejected; a genres equality becomes
a LIKE containment pattern. -/
theorem C8_genres_containment_witness :
    format_constraints [[("genres", ">", "war")]] = none ∧
    format_constraints [[("genres", "=", "war")]] = some ("genres like ?", ["%war%"]) :=
  ⟨C8_genres_containment.1 _ [("genres", ">", "war")] ">" "war" (by simp) (by simp) (by decide),
   C8_genres_containment.2 "war"⟩

/-- C10: when the amount string, after stripping surrounding whitespace, is not
composed only of digits, random_movies_2 silently runs the query with the
default limit "3": the call is indistinguishable from one with amount "3", the
non-numeric text never reaches the bound values, and no error is raised (the
embedding is a total function). -/
theorem C10_nonnumeric_amount_defaults (amount : String)
    (h : isDigitString (pystrip amount) = false)
    (constraints : Option (List (List (String × String × String)))) :
    random_movies_2_query amount constraints = random_movies_2_query "3" constraints := by
  have h3 : effective_amount "3" = "3" := by decide
  have ha : effective_amount amount = "3" := by
    simp [effective_amount, h]
  cases constraints with
  | none => simp [random_movies_2_query, ha, h3]
  | some cs =>
    cases hfc : format_constraints cs with
    | none => simp [random_movies_2_query, hfc]
    | some p => simp [random_movies_2_query, hfc, ha, h3]

/-- Witness for C10: the amount "two" falls back to the default limit "3". -/
theorem C10_nonnumeric_amount_defaults_witness :
    isDigitString (pystrip "two") = false ∧
    random_movies_2_query "two" none = random_movies_2_query "3" none :=
  ⟨by decide, C10_nonnumeric_amount_defaults "two" (by decide) none⟩

/-! ## Constraint parser, modelled from the spec (section 4.1)

The whitespace-tokenizing parser that produces the constraint lists consumed
by format_constraints / random_movies_2 is not among the source files; src/
holds only its consumer (imdb.format_constraints) and the legacy regex-based
Query class.  The definitions below are therefore modelled from the spec:
split the filter text on " or ", each part on " and ", each atom on
whitespace; an atom must yield exactly three tokens and a conjunction must
yield at least one atom, else the whole parse fails; empty input means "no
filter".  Splitting is implemented over character lists with a fuel argument
so that it evaluates by kernel reduction. -/

def splitSepFuel (sep : List Char) : Nat → List Char → List (List Char)
  | _, [] => [[]]
  | 0, l => [l]
  | fuel + 1, c :: cs =>
    if !sep.isEmpty && sep.isPrefixOf (c :: cs) then
      [] :: splitSepFuel sep fuel ((c :: cs).drop sep.length)
    else
      match splitSepFuel sep fuel cs with
      | [] => [[c]]
      | t :: ts => (c :: t) :: ts

/-- Modelled from the spec: split a string on a separator substring, like
Python str.split(sep). -/
def splitOnStr (s sep : String) : List String :=
  (splitSepFuel sep.toList s.toList.length s.toList).map String.mk

/-- Modelled from the spec: tokenize one atom by splitting on whitespace runs
(Python str.split() with no argument drops empty tokens). -/
def whitespaceTokens (s : String) : List String :=
  ((s.toList.splitOnP Char.isWhitespace).filter (fun t => !t.isEmpty)).map String.mk

/-- Modelled from the spec: an atom must be exactly three tokens
field operator value; any other token count is a parse error. -/
def parseAtom (s : String) : Option (String × String × String) :=
  match whitespaceTokens s with
  | [f, op, v] => some (f, op, v)
  | _ => none

/-- Modelled from the spec: all atoms of a conjunction; one bad atom fails the
whole list. -/
def parseAtoms : List String → Option (List (String × String × String))
  | [] => some []
  | s :: rest =>
    match parseAtom s, parseAtoms rest with
    | some a, some more => some (a :: more)
    | _, _ => none

/-- Modelled from the spec: a conjunction is its " and "-separated atoms and
must contain at least one atom. -/
def parseConjunction (s : String) : Option (List (String × String × String)) :=
  match parseAtoms (splitOnStr s " and ") with
  | none => none
  | some [] => none
  | some atoms => some atoms

/-- Modelled from the spec: all conjunctions of the disjunction; one bad
conjunction fails the whole parse. -/
def parseConjunctions : List String → Option (List (List (String × String × String)))
  | [] => some []
  | s :: rest =>
    match parseConjunction s, parseConjunctions rest with
    | some c, some more => some (c :: more)
    | _, _ => none

/-- Modelled from the spec: parse a filter clause into a disjunction of
conjunctions of atoms; empty input parses to "no filter" (the empty
disjunction), distinct from a parse failure (none). -/
def parseWhere (text : String) : Option (List (List (String × String × String))) :=
  if pystrip text = "" then some []
  else parseConjunctions (splitOnStr text " or ")

/-- Modelled from the spec: the filter clause of a command is the text after
the first " where "; a command without one has no filter clause. -/
def whereClause (message : String) : String :=
  match splitOnStr message " where " with
  | [] => ""
  | [_] => ""
  | _ :: rest => String.intercalate " where " rest

theorem parseAtom_eq_none {s : String} (h : (whitespaceTokens s).length ≠ 3) :
    parseAtom s = none := by
  unfold parseAtom
  rcases hts : whitespaceTokens s with _ | ⟨x, _ | ⟨y, _ | ⟨z, _ | w⟩⟩⟩
  · rfl
  · rfl
  · rfl
  · rw [hts] at h
    simp at h
  · rfl

theorem parseAtoms_eq_none {l : List String} {s : String}
    (hmem : s ∈ l) (h : parseAtom s = none) : parseAtoms l = none := by
  induction l with
  | nil => cases hmem
  | cons hd tl ih =>
    rcases List.mem_cons.mp hmem with rfl | hmem2
    · simp only [parseAtoms, h]
    · simp only [parseAtoms, ih hmem2]
      split <;> simp_all

theorem parseConjunction_eq_none {c atom : String}
    (hmem : atom ∈ splitOnStr c " and ") (h : (whitespaceTokens atom).length ≠ 3) :
    parseConjunction c = none := by
  simp only [parseConjunction, parseAtoms_eq_none hmem (parseAtom_eq_none h)]

theorem parseConjunctions_eq_none {l : List String} {c : String}
    (hmem : c ∈ l) (h : parseConjunction c = none) : parseConjunctions l = none := by
  induction l with
  | nil => cases hmem
  | cons hd tl ih =>
    rcases List.mem_cons.mp hmem with rfl | hmem2
    · simp only [parseConjunctions, h]
    · simp only [parseConjunctions, ih hmem2]
      split <;> simp_all

/-- C4: the modelled constraint parser is fail-fast.  Any atom of any
conjunction whose whitespace tokenization does not have exactly three tokens
fails the whole parse; a conjunction that yields zero atoms fails the whole
parse; and the input "fetch 2 where rating" (whose filter clause "rating" has
one token) is a parse error, not a partially-applied or defaulted filter. -/
theorem C4_parser_fail_fast :
    (∀ text conj atom : String, pystrip text ≠ "" →
      conj ∈ splitOnStr text " or " → atom ∈ splitOnStr conj " and " →
      (whitespaceTokens atom).length ≠ 3 → parseWhere text = none) ∧
    (∀ text conj : String, pystrip text ≠ "" →
      conj ∈ splitOnStr text " or " → parseAtoms (splitOnStr conj " and ") = some [] →
      parseWhere text = none) ∧
    parseWhere (whereClause "fetch 2 where rating") = none := by
  refine ⟨?_, ?_, ?_⟩
  · intro text conj atom htext hconj hatom htok
    unfold parseWhere
    rw [if_neg htext]
    exact parseConjunctions_eq_none hconj (parseConjunction_eq_none hatom htok)
  · intro text conj htext hconj hempty
    unfold parseWhere
    rw [if_neg htext]
    refine parseConjunctions_eq_none hconj ?_
    simp only [parseConjunction, hempty]
  · decide

/-- Witness for C4: the filter clause "rating" alone (one token) fails the
parse. -/
theorem C4_parser_fail_fast_witness : parseWhere "rating" = none :=
  C4_parser_fail_fast.1 "rating" "rating" "rating" (by decide) (by decide) (by decide)
    (by decide)

/-! ## Embedding of the poll tally (src/djinn.py lines 159-201)

A published poll message is modelled by its handle (mid) and the count of the
vote emoji reaction read back at tally time (Poll.count_votes fetches each
message and takes the count of the vote-emoji reaction, which the bot itself
attached when publishing).  Poll.count_votes builds a defaultdict from
reaction count to the list of messages holding that count, in publication
order; it is embedded as an insertion-ordered association list.
Poll.broadcast_winner takes the entry at the maximum key (Python max() over
the dict keys, a ValueError on an empty dict) and picks a winner with
random.choice, modelled by an oracle draw r interpreted modulo the number of
tied candidates; the chosen handle is the message replied to. -/

structure Msg where
  mid : Nat
  votes : Nat
deriving DecidableEq

/-- One iteration of the Poll.count_votes loop: append message m to the bucket
of count c, or open a new bucket at the end (defaultdict insertion order). -/
def addVote : List (Nat × List Nat) → Nat → Nat → List (Nat × List Nat)
  | [], c, m => [(c, [m])]
  | (k, ms) :: rest, c, m =>
    if k = c then (k, ms ++ [m]) :: rest
    else (k, ms) :: addVote rest c m

/-- Embedding of Poll.count_votes: map from reaction count to the ordered list
of message handles holding that count. -/
def count_votes (msgs : List Msg) : List (Nat × List Nat) :=
  msgs.foldl (fun acc m => addVote acc m.votes m.mid) []

def vlookup : List (Nat × List Nat) → Nat → Option (List Nat)
  | [], _ => none
  | (k, ms) :: rest, c => if k = c then some ms else vlookup rest c

/-- Python max() over a nonempty list of naturals (0 when folded over an empty
tail, which cannot occur for a nonempty list of keys). -/
def maxList (l : List Nat) : Nat := l.foldr Nat.max 0

/-- Python max() over the dict keys: a ValueError (none) on an empty dict. -/
def maxKey : List (Nat × List Nat) → Option Nat
  | [] => none
  | t => some (maxList (t.map Prod.fst))

/-- Embedding of Poll.broadcast_winner: the handle that is replied to, or none
when max() raises ValueError on an empty tally.  The oracle draw r models
random.choice, which picks uniformly among the tied candidates. -/
def broadcast_winner (votes : List (Nat × List Nat)) (r : Nat) : Option Nat :=
  match maxKey votes with
  | none => none
  | some k =>
    match vlookup votes k with
    | none => none
    | some cands => cands.get? (r % cands.length)

/-! ## Embedding of Poll.process (src/djinn.py lines 190-200) as an effect
trace. -/

inductive PollEvent
  | invalidAmountReply
  | searchMsg
  | publish (mid : Nat)
  | waitMsg (minutes : Nat)
  | sleeping (minutes : Nat)
  | countMsg
  | winnerReply (mid : Nat)
deriving DecidableEq

inductive PollOutcome
  | returnedEarly
  | announced (mid : Nat)
  | crashed
deriving DecidableEq

/-- Embedding of Poll.process: amount check, search announcement, one publish
per sampled candidate, wait_to_count_votes(10) (wait announcement, the sleep,
the counting announcement), then count_votes and broadcast_winner.  The
candidates list is what publish_movies returned; crashed marks the unhandled
ValueError raised by max() on an empty tally. -/
def poll_process (amount : Nat) (candidates : List Msg) (r : Nat) :
    List PollEvent × PollOutcome :=
  if 0 < amount ∧ amount ≤ 10 then
    let pre := PollEvent.searchMsg :: candidates.map (fun m => PollEvent.publish m.mid) ++
      [PollEvent.waitMsg 10, PollEvent.sleeping 10, PollEvent.countMsg]
    match broadcast_winner (count_votes candidates) r with
    | some w => (pre ++ [PollEvent.winnerReply w], PollOutcome.announced w)
    | none => (pre, PollOutcome.crashed)
  else ([PollEvent.invalidAmountReply], PollOutcome.returnedEarly)

/-- C5 (code_bug evidence): with a valid amount and zero candidates returned
by the catalog, Poll.process does enter the Waiting state (it announces the
wait and sleeps the configured 10 minutes), proceeds to the counting
announcement, and then crashes on max() of the empty tally; it never sends a
"no matches" reply (only Fetch.process has that check, src/djinn.py lines
151-153). -/
theorem C5_zero_candidates_still_waits :
    poll_process 2 [] 0 =
      ([PollEvent.searchMsg, PollEvent.waitMsg 10, PollEvent.sleeping 10,
        PollEvent.countMsg], PollOutcome.crashed) ∧
    PollEvent.sleeping 10 ∈ (poll_process 2 [] 0).1 := by
  decide

/-! ## Lemmas for the winner-selection claim -/

/-- Bucket contents by vote count, in publication order: the handles of the
messages holding exactly count c. -/
def mids (c : Nat) (msgs : List Msg) : List Nat :=
  (msgs.filter (fun m => m.votes == c)).map Msg.mid

/-- Appending one bucket traversal step to an existing lookup result. -/
def combine : Option (List Nat) → List Nat → Option (List Nat)
  | some l, f => some (l ++ f)
  | none, [] => none
  | none, f => some f

theorem combine_nil (o : Option (List Nat)) : combine o [] = o := by
  cases o <;> simp [combine]

theorem vlookup_addVote (acc : List (Nat × List Nat)) (c m c' : Nat) :
    vlookup (addVote acc c m) c' =
      if c' = c then some (((vlookup acc c).getD []) ++ [m]) else vlookup acc c' := by
  induction acc with
  | nil =>
    by_cases h : c = c'
    · subst h
      simp [addVote, vlookup]
    · simp [addVote, vlookup, h, Ne.symm h]
  | cons hd tl ih =>
    obtain ⟨k, ms⟩ := hd
    by_cases hkc : k = c
    · subst hkc
      by_cases hc' : c' = k
      · subst hc'
        simp [addVote, vlookup]
      · simp [addVote, vlookup, hc', Ne.symm hc']
    · by_cases hc' : c' = c
      · subst hc'
        simp [addVote, vlookup, hkc, Ne.symm hkc, ih]
      · by_cases hk' : k = c'
        · subst hk'
          simp [addVote, vlookup, hkc, hc']
        · simp [addVote, vlookup, hkc, hc', hk', ih]

theorem vlookup_foldl (msgs : List Msg) :
    ∀ (acc : List (Nat × List Nat)) (c : Nat),
      vlookup (msgs.foldl (fun acc m => addVote acc m.votes m.mid) acc) c =
        combine (vlookup acc c) (mids c msgs) := by
  induction msgs with
  | nil =>
    intro acc c
    simp [mids, combine_nil]
  | cons m rest ih =>
    intro acc c
    rw [List.foldl_cons, ih, vlookup_addVote]
    by_cases hc : c = m.votes
    · subst hc
      have hmids : mids m.votes (m :: rest) = m.mid :: mids m.votes rest := by
        simp [mids]
      rw [if_pos rfl, hmids]
      cases hv : vlookup acc m.votes with
      | none => simp [combine]
      | some l => simp [combine]
    · have hmids : mids c (m :: rest) = mids c rest := by
        have : (m.votes == c) = false := by
          exact beq_eq_false_iff_ne.mpr (fun h => hc h.symm)
        simp [mids, List.filter_cons, this]
      rw [if_neg hc, hmids]

theorem vlookup_count_votes (msgs : List Msg) (c : Nat) :
    vlookup (count_votes msgs) c =
      if mids c msgs = [] then none else some (mids c msgs) := by
  have h := vlookup_foldl msgs [] c
  simp only [count_votes] at *
  rw [h]
  rcases hm : mids c msgs with _ | ⟨x, xs⟩ <;> simp [combine, vlookup]

theorem vlookup_eq_none_iff (t : List (Nat × List Nat)) (k : Nat) :
    vlookup t k = none ↔ k ∉ t.map Prod.fst := by
  induction t with
  | nil => simp [vlookup]
  | cons hd tl ih =>
    obtain ⟨k', ms⟩ := hd
    by_cases h : k' = k
    · subst h
      simp [vlookup]
    · simp [vlookup, h, Ne.symm h, ih]

theorem mids_eq_nil_iff (msgs : List Msg) (c : Nat) :
    mids c msgs = [] ↔ c ∉ msgs.map Msg.votes := by
  simp only [mids, List.map_eq_nil_iff, List.filter_eq_nil_iff, List.mem_map]
  constructor
  · rintro h ⟨m, hm, rfl⟩
    exact absurd (beq_self_eq_true m.votes) (by simpa using h m hm)
  · intro h m hm
    simp only [beq_iff_eq]
    intro heq
    exact h ⟨m, hm, heq⟩

theorem mem_keys_count_votes (msgs : List Msg) (k : Nat) :
    k ∈ (count_votes msgs).map Prod.fst ↔ k ∈ msgs.map Msg.votes := by
  constructor
  · intro hk
    by_contra hv
    have h1 : vlookup (count_votes msgs) k = none := by
      rw [vlookup_count_votes, if_pos ((mids_eq_nil_iff msgs k).mpr hv)]
    exact ((vlookup_eq_none_iff _ _).mp h1) hk
  · intro hv
    by_contra hk
    have h1 : vlookup (count_votes msgs) k = none := by
      rcases hl : vlookup (count_votes msgs) k with _ | l
      · rfl
      · exact absurd ((vlookup_eq_none_iff _ _).mpr hk) (by simp [hl])
    rw [vlookup_count_votes] at h1
    by_cases hm : mids k msgs = []
    · exact ((mids_eq_nil_iff msgs k).mp hm) hv
    · rw [if_neg hm] at h1
      cases h1

theorem addVote_ne_nil (acc : List (Nat × List Nat)) (c m : Nat) :
    addVote acc c m ≠ [] := by
  cases acc with
  | nil => simp [addVote]
  | cons hd tl =>
    obtain ⟨k, ms⟩ := hd
    simp only [addVote]
    split <;> simp

theorem foldl_addVote_ne_nil (msgs : List Msg) :
    ∀ acc : List (Nat × List Nat), acc ≠ [] →
      msgs.foldl (fun acc m => addVote acc m.votes m.mid) acc ≠ [] := by
  induction msgs with
  | nil => intro acc h; simpa using h
  | cons m rest ih =>
    intro acc _
    rw [List.foldl_cons]
    exact ih _ (addVote_ne_nil acc m.votes m.mid)

theorem count_votes_ne_nil {msgs : List Msg} (h : msgs ≠ []) :
    count_votes msgs ≠ [] := by
  obtain ⟨m, rest, rfl⟩ := List.exists_cons_of_ne_nil h
  simp only [count_votes, List.foldl_cons]
  exact foldl_addVote_ne_nil rest _ (addVote_ne_nil [] m.votes m.mid)

theorem maxList_mem : ∀ {l : List Nat}, l ≠ [] → maxList l ∈ l := by
  intro l
  induction l with
  | nil => intro h; cases h rfl
  | cons x xs ih =>
    intro _
    rcases hxs : xs with _ | ⟨y, ys⟩
    · simp [maxList]
    · rw [← hxs]
      have hx : maxList (x :: xs) = max x (maxList xs) := rfl
      rcases max_choice x (maxList xs) with h | h
      · rw [hx, h]
        exact List.mem_cons_self x xs
      · rw [hx, h]
        exact List.mem_cons_of_mem x (ih (by simp [hxs]))

theorem le_maxList : ∀ {l : List Nat} {x : Nat}, x ∈ l → x ≤ maxList l := by
  intro l
  induction l with
  | nil => intro x hx; cases hx
  | cons y ys ih =>
    intro x hx
    have h : maxList (y :: ys) = max y (maxList ys) := rfl
    rcases List.mem_cons.mp hx with rfl | hx2
    · rw [h]; exact le_max_left _ _
    · rw [h]; exact le_trans (ih hx2) (le_max_right _ _)

theorem maxList_congr {l1 l2 : List Nat} (h1 : l1 ≠ []) (h2 : l2 ≠ [])
    (h : ∀ x, x ∈ l1 ↔ x ∈ l2) : maxList l1 = maxList l2 :=
  le_antisymm (le_maxList ((h _).mp (maxList_mem h1)))
    (le_maxList ((h _).mpr (maxList_mem h2)))

/-- Maximum vote count among the published messages. -/
def maxVotes (msgs : List Msg) : Nat := maxList (msgs.map Msg.votes)

theorem maxKey_count_votes {msgs : List Msg} (h : msgs ≠ []) :
    maxKey (count_votes msgs) = some (maxVotes msgs) := by
  have hne := count_votes_ne_nil h
  obtain ⟨p, t, hpt⟩ := List.exists_cons_of_ne_nil hne
  have hkeys : (count_votes msgs).map Prod.fst ≠ [] := by
    rw [hpt]; simp
  have hvotes : msgs.map Msg.votes ≠ [] := by
    obtain ⟨m, rest, rfl⟩ := List.exists_cons_of_ne_nil h
    simp
  have hcongr := maxList_congr hkeys hvotes (mem_keys_count_votes msgs)
  rw [hpt]
  show some (maxList ((p :: t).map Prod.fst)) = some (maxVotes msgs)
  rw [← hpt, hcongr]
  rfl

theorem vlookup_count_votes_maxVotes {msgs : List Msg} (h : msgs ≠ []) :
    vlookup (count_votes msgs) (maxVotes msgs) = some (mids (maxVotes msgs) msgs) := by
  have hvotes : msgs.map Msg.votes ≠ [] := by
    obtain ⟨m, rest, rfl⟩ := List.exists_cons_of_ne_nil h
    simp
  have hmem : maxVotes msgs ∈ msgs.map Msg.votes := maxList_mem hvotes
  have hne : mids (maxVotes msgs) msgs ≠ [] :=
    fun hnil => ((mids_eq_nil_iff msgs (maxVotes msgs)).mp hnil) hmem
  rw [vlookup_count_votes, if_neg hne]

/-- C6: winner selection in the poll tally.  The candidate set at the maximum
vote count is exactly the ordered list of handles of the messages holding the
maximum; with a single maximum the winner is that message for every random
draw; with N tied maxima the draw i picks the i-th tied message (the draw-to-
winner map is the identity on the tied list, so a uniform draw gives a uniform
winner, neither first-registered nor deterministic by position); and the
announcement replies to the selected handle. -/
theorem C6_winner_selection (msgs : List Msg) (hne : msgs ≠ []) :
    ∃ cands : List Nat,
      maxKey (count_votes msgs) = some (maxVotes msgs) ∧
      vlookup (count_votes msgs) (maxVotes msgs) = some cands ∧
      cands = (msgs.filter (fun m => m.votes == maxVotes msgs)).map Msg.mid ∧
      (∀ r : Nat, broadcast_winner (count_votes msgs) r = cands.get? (r % cands.length)) ∧
      (∀ m : Nat, cands = [m] → ∀ r : Nat, broadcast_winner (count_votes msgs) r = some m) ∧
      (∀ i : Nat, i < cands.length → broadcast_winner (count_votes msgs) i = cands.get? i) ∧
      (∀ r w amount : Nat, 0 < amount → amount ≤ 10 →
        broadcast_winner (count_votes msgs) r = some w →
        PollEvent.winnerReply w ∈ (poll_process amount msgs r).1) := by
  refine ⟨mids (maxVotes msgs) msgs, maxKey_count_votes hne,
    vlookup_count_votes_maxVotes hne, rfl, ?_, ?_, ?_, ?_⟩
  · intro r
    simp only [broadcast_winner, maxKey_count_votes hne, vlookup_count_votes_maxVotes hne]
  · intro m hm r
    simp only [broadcast_winner, maxKey_count_votes hne, vlookup_count_votes_maxVotes hne, hm]
    simp [Nat.mod_one]
  · intro i hi
    simp only [broadcast_winner, maxKey_count_votes hne, vlookup_count_votes_maxVotes hne]
    rw [Nat.mod_eq_of_lt hi]
  · intro r w amount h1 h2 hw
    simp only [poll_process, if_pos (And.intro h1 h2), hw]
    simp

/-- Witness for C6: three published messages with votes 5, 7, 7; the tied
candidates are handles 2 and 3 and the draws 0 and 1 pick them in order. -/
theorem C6_winner_selection_witness :
    ∃ cands : List Nat,
      maxKey (count_votes [⟨1, 5⟩, ⟨2, 7⟩, ⟨3, 7⟩]) = some (maxVotes [⟨1, 5⟩, ⟨2, 7⟩, ⟨3, 7⟩]) ∧
      vlookup (count_votes [⟨1, 5⟩, ⟨2, 7⟩, ⟨3, 7⟩]) (maxVotes [⟨1, 5⟩, ⟨2, 7⟩, ⟨3, 7⟩]) =
        some cands ∧
      cands = (([⟨1, 5⟩, ⟨2, 7⟩, ⟨3, 7⟩] : List Msg).filter
        (fun m => m.votes == maxVotes [⟨1, 5⟩, ⟨2, 7⟩, ⟨3, 7⟩])).map Msg.mid ∧
      (∀ r : Nat, broadcast_winner (count_votes [⟨1, 5⟩, ⟨2, 7⟩, ⟨3, 7⟩]) r =
        cands.get? (r % cands.length)) ∧
      (∀ m : Nat, cands = [m] → ∀ r : Nat,
        broadcast_winner (count_votes [⟨1, 5⟩, ⟨2, 7⟩, ⟨3, 7⟩]) r = some m) ∧
      (∀ i : Nat, i < cands.length →
        broadcast_winner (count_votes [⟨1, 5⟩, ⟨2, 7⟩, ⟨3, 7⟩]) i = cands.get? i) ∧
      (∀ r w amount : Nat, 0 < amount → amount ≤ 10 →
        broadcast_winner (count_votes [⟨1, 5⟩, ⟨2, 7⟩, ⟨3, 7⟩]) r = some w →
        PollEvent.winnerReply w ∈ (poll_process amount [⟨1, 5⟩, ⟨2, 7⟩, ⟨3, 7⟩] r).1) :=
  C6_winner_selection [⟨1, 5⟩, ⟨2, 7⟩, ⟨3, 7⟩] (by simp)

/-! ## Embedding of the per-channel scheduler (src/djinn.py lines 215-274)

Djinn keeps running_commands, a dict from channel to the asyncio task created
for the last accepted command on that channel.  asyncio is a single-threaded
cooperative scheduler, so each span of code between awaits runs atomically;
the events below are exactly those atomic spans that touch the shared dict:

* on_work_message: the dispatch path of on_message for a fetch/poll command
  (lines 264-269): the busy check via can_be_processed, and on success
  asyncio.create_task followed by register_command, with no await in between.
  On a busy channel the command is rejected with the reply
  "This command cannot be run." and nothing else happens (no task object is
  created, nothing queued).
* on_cancel_message: the dispatch path for a cancel command.
  Cancel.can_be_processed inverts the busy check; when busy, Cancel.process
  runs deregister_command (delivering task.cancel() to the registered task)
  and replies "Command cancelled", after which the awaiting on_message calls
  deregister_command a second time (line 274).  When idle it only replies.
* finish_task: the registered task concludes by any exit path (normal return,
  the validation-failure return, asyncio.CancelledError, or an unexpected
  exception): its done() flag becomes true and the awaiting on_message then
  calls deregister_command (line 274).

Channels and task ids are Nat; the dict is an association list; tasks are
looked up by id in the list of all created command tasks. -/

inductive ExitReason
  | success
  | validationFailure
  | cancelled
  | unexpectedError
deriving DecidableEq

structure STask where
  tid : Nat
  channel : Nat
  done : Bool
  cancelRequested : Bool
deriving DecidableEq

structure SchedState where
  running_commands : List (Nat × Nat)
  tasks : List STask
  nextTid : Nat
deriving DecidableEq

/-- Dict lookup: running_commands.get(channel). -/
def alookup : List (Nat × Nat) → Nat → Option Nat
  | [], _ => none
  | (k, v) :: rest, ch => if k = ch then some v else alookup rest ch

/-- Dict assignment: running_commands[channel] = task. -/
def ainsert : List (Nat × Nat) → Nat → Nat → List (Nat × Nat)
  | [], ch, tid => [(ch, tid)]
  | (k, v) :: rest, ch, tid =>
    if k = ch then (k, tid) :: rest else (k, v) :: ainsert rest ch tid

def get_task (tasks : List STask) (tid : Nat) : Option STask :=
  tasks.find? (fun t => t.tid == tid)

/-- Embedding of Djinn.is_channel_busy: a task is registered for the channel
and is not done. -/
def is_channel_busy (st : SchedState) (ch : Nat) : Bool :=
  match alookup st.running_commands ch with
  | none => false
  | some tid =>
    match get_task st.tasks tid with
    | none => false
    | some t => !t.done

/-- Embedding of Djinn.register_command: store the task unless the channel is
busy. -/
def register_command (st : SchedState) (ch tid : Nat) : SchedState :=
  if is_channel_busy st ch then st
  else { st with running_commands := ainsert st.running_commands ch tid }

/-- Deliver task.cancel() to the task with the given id: the cooperative
cancellation signal is recorded; the task is not forcibly terminated. -/
def mark_cancel (tasks : List STask) (tid : Nat) : List STask :=
  tasks.map (fun t => if t.tid = tid then { t with cancelRequested := true } else t)

/-- Embedding of Djinn.deregister_command: when the channel is busy, call
cancel() on the registered task; otherwise do nothing. -/
def deregister_command (st : SchedState) (ch : Nat) : SchedState :=
  if is_channel_busy st ch then
    match alookup st.running_commands ch with
    | some tid => { st with tasks := mark_cancel st.tasks tid }
    | none => st
  else st

/-- The task with the given id concludes: its done() flag becomes true. -/
def mark_done (tasks : List STask) (tid : Nat) : List STask :=
  tasks.map (fun t => if t.tid = tid then { t with done := true } else t)

inductive Reply
  | cannotRun
  | accepted
  | commandCancelled
deriving DecidableEq

/-- Dispatch of a fetch or poll command on a channel (on_message lines
264-269): reject with the busy reply when busy; otherwise create a fresh task
and register it.  There is no await between the busy check, task creation and
registration, so this is one atomic step of the cooperative scheduler. -/
def on_work_message (st : SchedState) (ch : Nat) : SchedState × Reply :=
  if is_channel_busy st ch then (st, Reply.cannotRun)
  else
    let t : STask := { tid := st.nextTid, channel := ch, done := false, cancelRequested := false }
    let st1 : SchedState := { st with tasks := t :: st.tasks, nextTid := st.nextTid + 1 }
    (register_command st1 ch t.tid, Reply.accepted)

/-- Dispatch of a cancel command on a channel.  The boolean reports whether a
cancellation signal was delivered to a running task.  When busy,
deregister_command runs twice: once inside Cancel.process and once when
on_message resumes after awaiting it (the second call is a no-op or repeats
the idempotent cancel()).  register_command is also called for the cancel
task but the channel is busy, so it leaves the dict unchanged, exactly as in
the source. -/
def on_cancel_message (st : SchedState) (ch : Nat) : SchedState × Reply × Bool :=
  if is_channel_busy st ch then
    (deregister_command (deregister_command st ch) ch, Reply.commandCancelled, true)
  else (st, Reply.cannotRun, false)

/-- The registered task for a channel concludes by any exit path; afterwards
the awaiting on_message calls deregister_command (src/djinn.py line 274). -/
def finish_task (st : SchedState) (ch tid : Nat) (_reason : ExitReason) : SchedState :=
  deregister_command { st with tasks := mark_done st.tasks tid } ch

def initState : SchedState := { running_commands := [], tasks := [], nextTid := 0 }

/-- One atomic step of the cooperative scheduler. -/
inductive Step : SchedState → SchedState → Prop
  | work (st : SchedState) (ch : Nat) : Step st (on_work_message st ch).1
  | cancelMsg (st : SchedState) (ch : Nat) : Step st (on_cancel_message st ch).1
  | finish (st : SchedState) (ch tid : Nat) (r : ExitReason) : Step st (finish_task st ch tid r)

inductive Reachable : SchedState → Prop
  | init : Reachable initState
  | step {st st' : SchedState} : Reachable st → Step st st' → Reachable st'

/-- Command tasks created for this channel and still in flight (created, not
yet concluded). -/
def activeFor (st : SchedState) (ch : Nat) : List STask :=
  st.tasks.filter (fun t => t.channel == ch && !t.done)

/-- Scheduler invariant: created task ids are below the fresh counter and
pairwise distinct, registered ids are below the fresh counter, and every
in-flight task is the one registered for its channel. -/
def Inv (st : SchedState) : Prop :=
  (∀ t ∈ st.tasks, t.tid < st.nextTid) ∧
  (st.tasks.map STask.tid).Nodup ∧
  (∀ p ∈ st.running_commands, p.2 < st.nextTid) ∧
  (∀ t ∈ st.tasks, t.done = false → alookup st.running_commands t.channel = some t.tid)

/-! ## Scheduler lemmas -/

theorem alookup_ainsert_self (l : List (Nat × Nat)) (ch tid : Nat) :
    alookup (ainsert l ch tid) ch = some tid := by
  induction l with
  | nil => simp [ainsert, alookup]
  | cons hd tl ih =>
    obtain ⟨k, v⟩ := hd
    by_cases h : k = ch
    · subst h
      simp [ainsert, alookup]
    · simp [ainsert, alookup, h, ih]

theorem alookup_ainsert_other (l : List (Nat × Nat)) (ch tid ch' : Nat) (h : ch' ≠ ch) :
    alookup (ainsert l ch tid) ch' = alookup l ch' := by
  induction l with
  | nil => simp [ainsert, alookup, Ne.symm h]
  | cons hd tl ih =>
    obtain ⟨k, v⟩ := hd
    by_cases hk : k = ch
    · subst hk
      simp [ainsert, alookup, Ne.symm h]
    · simp [ainsert, alookup, hk, ih]

theorem mem_ainsert {l : List (Nat × Nat)} {p : Nat × Nat} {ch tid : Nat}
    (h : p ∈ ainsert l ch tid) : p.2 = tid ∨ p ∈ l := by
  induction l with
  | nil =>
    simp [ainsert] at h
    subst h
    exact Or.inl rfl
  | cons hd tl ih =>
    obtain ⟨k, v⟩ := hd
    by_cases hk : k = ch
    · subst hk
      simp only [ainsert, if_pos rfl] at h
      rcases List.mem_cons.mp h with rfl | hm
      · exact Or.inl rfl
      · exact Or.inr (List.mem_cons_of_mem _ hm)
    · simp only [ainsert, if_neg hk] at h
      rcases List.mem_cons.mp h with rfl | hm
      · exact Or.inr (List.mem_cons_self _ _)
      · rcases ih hm with h1 | h2
        · exact Or.inl h1
        · exact Or.inr (List.mem_cons_of_mem _ h2)

theorem alookup_mem {l : List (Nat × Nat)} {ch v : Nat} (h : alookup l ch = some v) :
    (ch, v) ∈ l := by
  induction l with
  | nil => cases h
  | cons hd tl ih =>
    obtain ⟨k, w⟩ := hd
    by_cases hk : k = ch
    · subst hk
      have h3 : w = v := by simpa [alookup] using h
      subst h3
      exact List.mem_cons_self _ _
    · have h2 : alookup tl ch = some v := by simpa [alookup, hk] using h
      exact List.mem_cons_of_mem _ (ih h2)

theorem get_task_map (f : STask → STask) (hf : ∀ t, (f t).tid = t.tid)
    (ts : List STask) (tid : Nat) :
    get_task (ts.map f) tid = (get_task ts tid).map f := by
  induction ts with
  | nil => rfl
  | cons hd tl ih =>
    by_cases h : hd.tid = tid
    · have h1 : ((f hd).tid == tid) = true := by rw [hf]; exact beq_iff_eq.mpr h
      have h2 : (hd.tid == tid) = true := beq_iff_eq.mpr h
      simp only [List.map_cons, get_task, List.find?_cons, h1, h2]
      rfl
    · have h1 : ((f hd).tid == tid) = false := by
        rw [hf]; exact beq_eq_false_iff_ne.mpr h
      have h2 : (hd.tid == tid) = false := beq_eq_false_iff_ne.mpr h
      simp only [List.map_cons, get_task, List.find?_cons, h1, h2]
      exact ih

theorem get_task_of_mem {ts : List STask} {t : STask}
    (hnd : (ts.map STask.tid).Nodup) (ht : t ∈ ts) : get_task ts t.tid = some t := by
  induction ts with
  | nil => cases ht
  | cons hd tl ih =>
    rcases List.mem_cons.mp ht with rfl | hmem
    · simp [get_task, List.find?_cons]
    · have hne : hd.tid ≠ t.tid := by
        intro he
        have hmm : t.tid ∈ tl.map STask.tid := List.mem_map_of_mem _ hmem
        rw [List.map_cons, List.nodup_cons] at hnd
        exact hnd.1 (he ▸ hmm)
      have h1 : (hd.tid == t.tid) = false := beq_eq_false_iff_ne.mpr hne
      rw [List.map_cons, List.nodup_cons] at hnd
      simp only [get_task, List.find?_cons, h1]
      exact ih hnd.2 hmem

theorem mark_cancel_eq_map (ts : List STask) (tid : Nat) :
    mark_cancel ts tid =
      ts.map (fun t => if t.tid = tid then { t with cancelRequested := true } else t) := rfl

theorem mark_done_eq_map (ts : List STask) (tid : Nat) :
    mark_done ts tid = ts.map (fun t => if t.tid = tid then { t with done := true } else t) := rfl

theorem is_channel_busy_mark_cancel (st : SchedState) (tid ch : Nat) :
    is_channel_busy { st with tasks := mark_cancel st.tasks tid } ch =
      is_channel_busy st ch := by
  have hf : ∀ t : STask,
      ((fun t => if t.tid = tid then { t with cancelRequested := true } else t) t).tid = t.tid := by
    intro t
    by_cases h : t.tid = tid <;> simp [h]
  simp only [is_channel_busy]
  cases halk : alookup st.running_commands ch with
  | none => rfl
  | some tid2 =>
    simp only [mark_cancel_eq_map, get_task_map _ hf]
    cases hgt : get_task st.tasks tid2 with
    | none => simp [hgt]
    | some t =>
      by_cases h : t.tid = tid <;> simp [hgt, h]

theorem inv_init : Inv initState := by
  refine ⟨?_, ?_, ?_, ?_⟩ <;> simp [initState]

theorem inv_map_tasks (st : SchedState) (f : STask → STask)
    (hft : ∀ t, (f t).tid = t.tid) (hfc : ∀ t, (f t).channel = t.channel)
    (hfd : ∀ t, (f t).done = false → t.done = false)
    (h : Inv st) : Inv { st with tasks := st.tasks.map f } := by
  obtain ⟨h1, h2, h3, h4⟩ := h
  refine ⟨?_, ?_, h3, ?_⟩
  · intro t ht
    obtain ⟨u, hu, rfl⟩ := List.mem_map.mp ht
    rw [hft]
    exact h1 u hu
  · show ((st.tasks.map f).map STask.tid).Nodup
    rw [List.map_map]
    have hcomp : STask.tid ∘ f = STask.tid := funext hft
    rw [hcomp]
    exact h2
  · intro t ht hd
    obtain ⟨u, hu, rfl⟩ := List.mem_map.mp ht
    show alookup st.running_commands (f u).channel = some (f u).tid
    rw [hfc, hft]
    exact h4 u hu (hfd u hd)

theorem inv_deregister (st : SchedState) (ch : Nat) (h : Inv st) :
    Inv (deregister_command st ch) := by
  unfold deregister_command
  by_cases hb : is_channel_busy st ch = true
  · rw [if_pos hb]
    cases halk : alookup st.running_commands ch with
    | none => exact h
    | some tid =>
      show Inv { st with tasks := mark_cancel st.tasks tid }
      rw [mark_cancel_eq_map]
      refine inv_map_tasks st _ ?_ ?_ ?_ h
      · intro t
        by_cases h' : t.tid = tid <;> simp [h']
      · intro t
        by_cases h' : t.tid = tid <;> simp [h']
      · intro t hd
        by_cases h' : t.tid = tid
        · rw [if_pos h'] at hd
          exact hd
        · rw [if_neg h'] at hd
          exact hd
  · rw [if_neg hb]
    exact h

theorem inv_mark_done (st : SchedState) (tid : Nat) (h : Inv st) :
    Inv { st with tasks := mark_done st.tasks tid } := by
  rw [mark_done_eq_map]
  refine inv_map_tasks st _ ?_ ?_ ?_ h
  · intro t
    by_cases h' : t.tid = tid <;> simp [h']
  · intro t
    by_cases h' : t.tid = tid <;> simp [h']
  · intro t hd
    by_cases h' : t.tid = tid
    · rw [if_pos h'] at hd
      simp at hd
    · rw [if_neg h'] at hd
      exact hd

theorem inv_finish_task (st : SchedState) (ch tid : Nat) (r : ExitReason) (h : Inv st) :
    Inv (finish_task st ch tid r) :=
  inv_deregister _ _ (inv_mark_done st tid h)

theorem inv_on_cancel (st : SchedState) (ch : Nat) (h : Inv st) :
    Inv (on_cancel_message st ch).1 := by
  unfold on_cancel_message
  split
  · exact inv_deregister _ _ (inv_deregister _ _ h)
  · exact h

theorem is_channel_busy_fresh_task (st : SchedState) (ch ch2 : Nat)
    (h3 : ∀ p ∈ st.running_commands, p.2 < st.nextTid) :
    is_channel_busy { st with
        tasks := ⟨st.nextTid, ch, false, false⟩ :: st.tasks,
        nextTid := st.nextTid + 1 } ch2 =
      is_channel_busy st ch2 := by
  simp only [is_channel_busy]
  cases halk : alookup st.running_commands ch2 with
  | none => rfl
  | some tid2 =>
    have hlt : tid2 < st.nextTid := h3 _ (alookup_mem halk)
    have hne : ((⟨st.nextTid, ch, false, false⟩ : STask).tid == tid2) = false := by
      refine beq_eq_false_iff_ne.mpr ?_
      show st.nextTid ≠ tid2
      omega
    simp only [get_task, List.find?_cons, hne]

theorem inv_on_work (st : SchedState) (ch : Nat) (h : Inv st) :
    Inv (on_work_message st ch).1 := by
  unfold on_work_message
  by_cases hb : is_channel_busy st ch = true
  · rw [if_pos hb]
    exact h
  · rw [if_neg hb]
    obtain ⟨h1, h2, h3, h4⟩ := h
    have hb1 := is_channel_busy_fresh_task st ch ch h3
    show Inv (register_command { st with
      tasks := ⟨st.nextTid, ch, false, false⟩ :: st.tasks,
      nextTid := st.nextTid + 1 } ch st.nextTid)
    unfold register_command
    rw [hb1, if_neg hb]
    show Inv (SchedState.mk (ainsert st.running_commands ch st.nextTid)
      (⟨st.nextTid, ch, false, false⟩ :: st.tasks) (st.nextTid + 1))
    refine ⟨?_, ?_, ?_, ?_⟩
    · intro t ht
      rcases List.mem_cons.mp ht with rfl | hm
      · exact Nat.lt_succ_self _
      · exact Nat.lt_succ_of_lt (h1 t hm)
    · show (((⟨st.nextTid, ch, false, false⟩ : STask) :: st.tasks).map STask.tid).Nodup
      rw [List.map_cons, List.nodup_cons]
      refine ⟨?_, h2⟩
      intro hmem
      obtain ⟨u, hu, he⟩ := List.mem_map.mp hmem
      have he2 : u.tid = st.nextTid := by simpa using he
      have := h1 u hu
      omega
    · intro p hp
      rcases mem_ainsert hp with h' | h'
      · show p.2 < st.nextTid + 1
        omega
      · show p.2 < st.nextTid + 1
        exact Nat.lt_succ_of_lt (h3 p h')
    · intro t ht hd
      rcases List.mem_cons.mp ht with rfl | hm
      · exact alookup_ainsert_self _ _ _
      · by_cases hch : t.channel = ch
        · exfalso
          have hlk := h4 t hm hd
          rw [hch] at hlk
          have hbusy : is_channel_busy st ch = true := by
            simp only [is_channel_busy, hlk, get_task_of_mem h2 hm, hd]
            rfl
          exact hb hbusy
        · show alookup (ainsert st.running_commands ch st.nextTid) t.channel = some t.tid
          rw [alookup_ainsert_other _ _ _ _ hch]
          exact h4 t hm hd

theorem reachable_inv {st : SchedState} (h : Reachable st) : Inv st := by
  induction h with
  | init => exact inv_init
  | step hr hs ih =>
    cases hs with
    | work ch => exact inv_on_work _ ch ih
    | cancelMsg ch => exact inv_on_cancel _ ch ih
    | finish ch tid r => exact inv_finish_task _ ch tid r ih

theorem activeFor_length_le_one (st : SchedState) (h : Inv st) (ch : Nat) :
    (activeFor st ch).length ≤ 1 := by
  obtain ⟨h1, h2, h3, h4⟩ := h
  rcases hl : activeFor st ch with _ | ⟨a, _ | ⟨b, l3⟩⟩
  · simp
  · simp
  · exfalso
    have ha : a ∈ activeFor st ch := by
      rw [hl]; exact List.mem_cons_self _ _
    have hbm : b ∈ activeFor st ch := by
      rw [hl]; exact List.mem_cons_of_mem _ (List.mem_cons_self _ _)
    obtain ⟨ham, hac⟩ := List.mem_filter.mp ha
    obtain ⟨hbm2, hbc⟩ := List.mem_filter.mp hbm
    have hach : a.channel = ch ∧ a.done = false := by
      constructor
      · exact beq_iff_eq.mp (Bool.and_elim_left hac)
      · simpa using Bool.and_elim_right hac
    have hbch : b.channel = ch ∧ b.done = false := by
      constructor
      · exact beq_iff_eq.mp (Bool.and_elim_left hbc)
      · simpa using Bool.and_elim_right hbc
    have hla := h4 a ham hach.2
    have hlb := h4 b hbm2 hbch.2
    rw [hach.1] at hla
    rw [hbch.1] at hlb
    have htids : a.tid = b.tid := Option.some.inj (hla.symm.trans hlb)
    have hsub : ((activeFor st ch).map STask.tid).Nodup :=
      List.Nodup.sublist (List.Sublist.map STask.tid (List.filter_sublist st.tasks)) h2
    rw [hl, List.map_cons, List.map_cons, List.nodup_cons] at hsub
    exact hsub.1 (htids ▸ List.mem_cons_self _ _)

/-! ## Claim theorems about the scheduler -/

/-- C1: for every reachable scheduler state and channel, a fetch/poll command
arriving while the channel is busy is rejected immediately with the busy reply
and changes nothing (no task is created, queued or run — the state is returned
unchanged), and at most one command task is in flight for the channel (no two
tasks ever run concurrently against the same channel's slot). -/
theorem C1_one_command_in_flight_per_channel (st : SchedState) (h : Reachable st)
    (ch : Nat) :
    (is_channel_busy st ch = true → on_work_message st ch = (st, Reply.cannotRun)) ∧
    (activeFor st ch).length ≤ 1 := by
  refine ⟨?_, activeFor_length_le_one st (reachable_inv h) ch⟩
  intro hb
  simp [on_work_message, hb]

/-- Witness for C1: the reachable state after accepting one command on
channel 0. -/
theorem C1_one_command_in_flight_per_channel_witness :
    (is_channel_busy ⟨[(0, 0)], [⟨0, 0, false, false⟩], 1⟩ 0 = true →
      on_work_message ⟨[(0, 0)], [⟨0, 0, false, false⟩], 1⟩ 0 =
        (⟨[(0, 0)], [⟨0, 0, false, false⟩], 1⟩, Reply.cannotRun)) ∧
    (activeFor ⟨[(0, 0)], [⟨0, 0, false, false⟩], 1⟩ 0).length ≤ 1 :=
  C1_one_command_in_flight_per_channel _
    (Reachable.step Reachable.init (Step.work initState 0)) 0

/-- C2: whatever the exit path of the registered in-flight task of a channel —
normal completion, validation failure, cooperative cancellation, or unexpected
error — after it concludes the scheduler reports the channel as not busy and a
subsequent command on that channel is accepted. -/
theorem C2_slot_released_on_every_exit (st : SchedState) (h : Reachable st)
    (t : STask) (ht : t ∈ st.tasks) (hdone : t.done = false) (r : ExitReason) :
    is_channel_busy (finish_task st t.channel t.tid r) t.channel = false ∧
    (on_work_message (finish_task st t.channel t.tid r) t.channel).2 = Reply.accepted := by
  obtain ⟨h1, h2, h3, h4⟩ := reachable_inv h
  have hlk : alookup st.running_commands t.channel = some t.tid := h4 t ht hdone
  have hfmap : ∀ u : STask,
      ((fun u => if u.tid = t.tid then { u with done := true } else u) u).tid = u.tid := by
    intro u
    by_cases h' : u.tid = t.tid <;> simp [h']
  have hgt : get_task (mark_done st.tasks t.tid) t.tid = some { t with done := true } := by
    rw [mark_done_eq_map, get_task_map _ hfmap, get_task_of_mem h2 ht]
    simp
  have hb1 : is_channel_busy { st with tasks := mark_done st.tasks t.tid } t.channel
      = false := by
    simp only [is_channel_busy, hlk, hgt]
    rfl
  have hfin : finish_task st t.channel t.tid r =
      { st with tasks := mark_done st.tasks t.tid } := by
    unfold finish_task deregister_command
    rw [hb1]
    simp
  rw [hfin]
  refine ⟨hb1, ?_⟩
  simp [on_work_message, hb1]

/-- Witness for C2: finishing the single in-flight task on channel 0 frees
the slot and a new command is accepted. -/
theorem C2_slot_released_on_every_exit_witness :
    is_channel_busy (finish_task ⟨[(0, 0)], [⟨0, 0, false, false⟩], 1⟩ 0 0
        ExitReason.success) 0 = false ∧
    (on_work_message (finish_task ⟨[(0, 0)], [⟨0, 0, false, false⟩], 1⟩ 0 0
        ExitReason.success) 0).2 = Reply.accepted :=
  C2_slot_released_on_every_exit _
    (Reachable.step Reachable.init (Step.work initState 0)) ⟨0, 0, false, false⟩
    (by decide) rfl ExitReason.success

/-- C9: the cancel dispatch reports delivery exactly when the channel was
busy; on an idle channel it replies and leaves the scheduler state entirely
unchanged (slot map included, so the channel stays idle); on a busy channel it
replies and the cancellation signal is recorded on the registered task.  The
reply is produced in both cases. -/
theorem C9_cancel_semantics (st : SchedState) (ch : Nat) :
    ((on_cancel_message st ch).2.2 = is_channel_busy st ch) ∧
    (is_channel_busy st ch = false →
      (on_cancel_message st ch).1 = st ∧
      (on_cancel_message st ch).2.1 = Reply.cannotRun) ∧
    (is_channel_busy st ch = true →
      (on_cancel_message st ch).2.1 = Reply.commandCancelled ∧
      ∀ tid, alookup st.running_commands ch = some tid →
        ∀ t ∈ st.tasks, t.tid = tid →
          { t with cancelRequested := true } ∈ (on_cancel_message st ch).1.tasks) := by
  cases hb : is_channel_busy st ch with
  | false =>
    refine ⟨?_, ?_, ?_⟩
    · simp [on_cancel_message, hb]
    · intro _
      constructor <;> simp [on_cancel_message, hb]
    · intro hf
      simp [hb] at hf
  | true =>
    refine ⟨?_, ?_, ?_⟩
    · simp [on_cancel_message, hb]
    · intro hf
      simp [hb] at hf
    · intro _
      refine ⟨by simp [on_cancel_message, hb], ?_⟩
      intro tid htid t htm htt
      have hd1 : deregister_command st ch = { st with tasks := mark_cancel st.tasks tid } := by
        unfold deregister_command
        rw [hb, htid]
        simp
      have hb2 : is_channel_busy { st with tasks := mark_cancel st.tasks tid } ch = true := by
        rw [is_channel_busy_mark_cancel]
        exact hb
      have hd2 : deregister_command { st with tasks := mark_cancel st.tasks tid } ch =
          { st with tasks := mark_cancel (mark_cancel st.tasks tid) tid } := by
        unfold deregister_command
        rw [hb2]
        show (match alookup st.running_commands ch with
          | some tid2 =>
            { st with tasks := mark_cancel (mark_cancel st.tasks tid) tid2 }
          | none => { st with tasks := mark_cancel st.tasks tid }) =
          { st with tasks := mark_cancel (mark_cancel st.tasks tid) tid }
        rw [htid]
      have hstep : (on_cancel_message st ch).1 =
          { st with tasks := mark_cancel (mark_cancel st.tasks tid) tid } := by
        unfold on_cancel_message
        rw [hb, hd1, hd2]
        simp
      rw [hstep]
      have hm1 : { t with cancelRequested := true } ∈ mark_cancel st.tasks tid := by
        rw [mark_cancel_eq_map]
        exact List.mem_map.mpr ⟨t, htm, by rw [if_pos htt]⟩
      show { t with cancelRequested := true } ∈ mark_cancel (mark_cancel st.tasks tid) tid
      rw [mark_cancel_eq_map (mark_cancel st.tasks tid) tid]
      refine List.mem_map.mpr ⟨{ t with cancelRequested := true }, hm1, ?_⟩
      obtain ⟨a, b, c, d⟩ := t
      simp only [STask.tid] at htt ⊢
      rw [if_pos htt]

/-- Witness for C9: a busy channel delivers the cancellation, an idle one is
covered by the vacuous branch of the same instantiation. -/
theorem C9_cancel_semantics_witness :
    ((on_cancel_message ⟨[(0, 0)], [⟨0, 0, false, false⟩], 1⟩ 0).2.2 =
      is_channel_busy ⟨[(0, 0)], [⟨0, 0, false, false⟩], 1⟩ 0) ∧
    (is_channel_busy ⟨[(0, 0)], [⟨0, 0, false, false⟩], 1⟩ 0 = false →
      (on_cancel_message ⟨[(0, 0)], [⟨0, 0, false, false⟩], 1⟩ 0).1 =
        ⟨[(0, 0)], [⟨0, 0, false, false⟩], 1⟩ ∧
      (on_cancel_message ⟨[(0, 0)], [⟨0, 0, false, false⟩], 1⟩ 0).2.1 = Reply.cannotRun) ∧
    (is_channel_busy ⟨[(0, 0)], [⟨0, 0, false, false⟩], 1⟩ 0 = true →
      (on_cancel_message ⟨[(0, 0)], [⟨0, 0, false, false⟩], 1⟩ 0).2.1 =
        Reply.commandCancelled ∧
      ∀ tid, alookup ([(0, 0)] : List (Nat × Nat)) 0 = some tid →
        ∀ t ∈ ([⟨0, 0, false, false⟩] : List STask), t.tid = tid →
          { t with cancelRequested := true } ∈
            (on_cancel_message ⟨[(0, 0)], [⟨0, 0, false, false⟩], 1⟩ 0).1.tasks) :=
  C9_cancel_semantics ⟨[(0, 0)], [⟨0, 0, false, false⟩], 1⟩ 0

end Djinn
